import Mathlib

/-!
Verification development for the multiple-choice-question parser of the
study-tool repository (file `src/components/mcq-parser.tsx`).

Strings are modelled as lists of characters (`Str`).  JavaScript string
methods used by the source (`trim`, `toLowerCase`, `includes`,
`replace(/../g, ..)`, `split`) are embedded as executable functions on
`Str`; the regular expressions of the source are embedded by explicit
scanners that follow the leftmost-match / greedy-with-backtracking
semantics of the concrete patterns appearing in the source.  Decoded JSON
values are modelled by the inductive type `Json`; JavaScript property
access, which throws a `TypeError` on `null`, is modelled in the `Except`
monad.
-/

namespace MCQ

abbrev Str := List Char

def strL (s : String) : Str := s.toList

/-- The character class of JavaScript `\s` (the members relevant here). -/
def jsWs (c : Char) : Bool :=
  c == ' ' || c == '\t' || c == '\n' || c == '\r' || c == '\x0b' ||
  c == '\x0c' || c == '\u00A0' || c == '\uFEFF' || c == '\u2028' || c == '\u2029'

/-- JavaScript `String.prototype.trim`. -/
def trimS (s : Str) : Str :=
  ((s.dropWhile jsWs).reverse.dropWhile jsWs).reverse

/-- ASCII lower-casing, model of `toLowerCase` on the inputs at hand. -/
def lowerC (c : Char) : Char := c.toLower

def lowerS (s : Str) : Str := s.map lowerC

/-- `replace(/\*\*/g, "")`: removes each non-overlapping occurrence of
two consecutive asterisks, scanning left to right. -/
def stripStars : Str → Str
  | '*' :: '*' :: rest => stripStars rest
  | c :: rest => c :: stripStars rest
  | [] => []

/-- `replace(/✅/g, "")`: removes every occurrence of the marker glyph. -/
def stripGlyph (s : Str) : Str := s.filter (fun c => c ≠ '✅')

/-- Exact (case-sensitive) prefix test. -/
def startsWithS : Str → Str → Bool
  | [], _ => true
  | _ :: _, [] => false
  | p :: ps, c :: cs => p == c && startsWithS ps cs

/-- `needle` occurs as a contiguous substring of `hay`
(JavaScript `hay.includes(needle)`). -/
def includesS (hay needle : Str) : Bool :=
  match hay with
  | [] => needle.isEmpty
  | _ :: rest => startsWithS needle hay || includesS rest needle

/-- Case-insensitive: the (lowercase) pattern `pat` is a prefix of `cs`. -/
def ciStarts : Str → Str → Bool
  | [], _ => true
  | _ :: _, [] => false
  | p :: ps, c :: cs => p == lowerC c && ciStarts ps cs

/-- `findIndex`: index of the first element satisfying `p`, if any. -/
def findIdxO (p : α → Bool) : List α → Option Nat
  | [] => none
  | a :: as => if p a then some 0 else (findIdxO p as).map (· + 1)

/-- `split("\n")`. -/
def splitNl : Str → List Str
  | [] => [[]]
  | c :: rest =>
    let r := splitNl rest
    if c = '\n' then [] :: r
    else (c :: r.headD []) :: r.tail

/-- Decimal identifier string `"q-" ++ n`. -/
def qId (n : Nat) : Str := 'q' :: '-' :: Nat.toDigits 10 n

/-! ## The decoded-JSON model -/

inductive Json where
  | null : Json
  | bool (b : Bool) : Json
  | num (n : Int) : Json
  | str (s : Str) : Json
  | arr (elems : List Json) : Json
  | obj (fields : List (Str × Json)) : Json

/-- Property lookup on the field list of a decoded object (keys of a
decoded JSON object are distinct). -/
def lookupField : List (Str × Json) → Str → Option Json
  | [], _ => none
  | (k, v) :: rest, key => if k = key then some v else lookupField rest key

/-- JavaScript truthiness of a property-access result (`none` is
`undefined`). -/
def truthy : Option Json → Bool
  | none => false
  | some Json.null => false
  | some (Json.bool b) => b
  | some (Json.num n) => n ≠ 0
  | some (Json.str s) => s ≠ []
  | some (Json.arr _) => true
  | some (Json.obj _) => true

/-- A thrown JavaScript `TypeError`. -/
inductive JsErr where
  | typeError : JsErr
deriving DecidableEq

/-- Property access `v.key`: throws on `null`, yields `undefined` on other
non-objects. -/
def getField : Json → Str → Except JsErr (Option Json)
  | Json.null, _ => Except.error JsErr.typeError
  | Json.obj fs, k => Except.ok (lookupField fs k)
  | _, _ => Except.ok none

def isOkE : Except ε α → Bool
  | Except.ok _ => true
  | Except.error _ => false

/-! ## The canonical question model -/

structure SectionEntry where
  title : Str
  content : Str
deriving DecidableEq

structure MCQQuestion where
  id : Str
  question : Json
  options : List Str
  correctAnswer : Nat
  explanation : Option Json := none
  additionalSections : Option (List SectionEntry) := none

/-! ## The JSON Question Extractor (`parseJSONQuestion`, `parseJSONFormat`) -/

def qKey : Str := strL "question"
def oKey : Str := strL "options"
def caKey : Str := strL "correct_answer"
def reasKey : Str := strL "reasoning"
def titleKey : Str := strL "title"
def questionsKey : Str := strL "questions"
def explKey : Str := strL "explanation"

def excludedKey (k : Str) : Bool :=
  k = qKey || k = oKey || k = caKey || k = reasKey || k = titleKey

/-- JavaScript `\w` (after underscores were replaced there is no `_`). -/
def isWordChar (c : Char) : Bool := c.isAlphanum || c == '_'

/-- `replace(/\b\w/g, l => l.toUpperCase())`: upper-case every word
character not preceded by a word character.  `prevW` records whether the
previous character was a word character. -/
def capWordsAux : Bool → Str → Str
  | _, [] => []
  | prevW, c :: rest =>
    (if prevW then c else if isWordChar c then c.toUpper else c) ::
      capWordsAux (isWordChar c) rest

/-- `key.replace(/_/g, " ").replace(/\b\w/g, l => l.toUpperCase())`. -/
def titleize (k : Str) : Str :=
  capWordsAux false (k.map (fun c => if c = '_' then ' ' else c))

/-- The `Object.keys(item).forEach` loop collecting `additionalSections`:
every non-excluded string-valued field with non-blank content, in field
order. -/
def secScan : List (Str × Json) → List SectionEntry
  | [] => []
  | (k, v) :: rest =>
    if excludedKey k then secScan rest
    else
      match v with
      | Json.str s => if trimS s ≠ [] then ⟨titleize k, s⟩ :: secScan rest
                      else secScan rest
      | _ => secScan rest

def addSecsOf (fs : List (Str × Json)) : Option (List SectionEntry) :=
  if secScan fs = [] then none else some (secScan fs)

/-- `item.reasoning || item.explanation || undefined`. -/
def explOf (fs : List (Str × Json)) : Option Json :=
  if truthy (lookupField fs reasKey) then lookupField fs reasKey
  else if truthy (lookupField fs explKey) then lookupField fs explKey
  else none

/-- The `forEach` over `item.options` calls `option.replace` on each
element in order: the first non-string element throws. -/
def asStrings : List Json → Except JsErr (List Str)
  | [] => Except.ok []
  | Json.str s :: rest => (asStrings rest).map (fun t => s :: t)
  | _ :: _ => Except.error JsErr.typeError

def optHasGlyph (o : Str) : Bool := o.contains '✅'

def cleanOpt (o : Str) : Str := trimS (stripGlyph o)

/-- The `forEach` fold computing `correctAnswer` from the marker glyph:
each glyph-bearing option overwrites the accumulator with its index. -/
def glyphScan : List Str → Nat → Nat → Nat
  | [], _, acc => acc
  | o :: rest, i, acc => glyphScan rest (i + 1) (if optHasGlyph o then i else acc)

def caMatch (t : Str) (opt : Str) : Bool :=
  includesS (lowerS opt) t || includesS t (lowerS opt)

/-- Resolution of `correctAnswer` for one item: the glyph fold, then the
`correct_answer` substring fallback (which throws on a truthy non-string
`correct_answer`). -/
def resolveCA (fs : List (Str × Json)) (os : List Str) : Except JsErr Nat :=
  if os.any optHasGlyph then Except.ok (glyphScan os 0 0)
  else if truthy (lookupField fs caKey) then
    match lookupField fs caKey with
    | some (Json.str s) =>
      Except.ok
        (match findIdxO (caMatch (trimS (lowerS s))) (os.map cleanOpt) with
         | some m => m
         | none => glyphScan os 0 0)
    | _ => Except.error JsErr.typeError
  else Except.ok (glyphScan os 0 0)

def mkJQ (fs : List (Str × Json)) (os : List Str) (ca : Nat) (i : Nat) :
    MCQQuestion :=
  { id := qId i
    question := (lookupField fs qKey).getD Json.null
    options := os.map cleanOpt
    correctAnswer := ca
    explanation := explOf fs
    additionalSections := addSecsOf fs }

/-- `parseJSONQuestion(item, index)`: `null` for shape mismatch is modelled
as `Except.ok none`; a thrown `TypeError` as `Except.error`. -/
def parseJSONQuestion (item : Json) (index : Nat) :
    Except JsErr (Option MCQQuestion) :=
  match item with
  | Json.null => Except.error JsErr.typeError
  | Json.obj fs =>
    if truthy (lookupField fs qKey) then
      match lookupField fs oKey with
      | some (Json.arr oj) =>
        match asStrings oj with
        | Except.ok os =>
          match resolveCA fs os with
          | Except.ok ca => Except.ok (some (mkJQ fs os ca index))
          | Except.error e => Except.error e
        | Except.error e => Except.error e
      | _ => Except.ok none
    else Except.ok none
  | _ => Except.ok none

/-- The `forEach` over a batch of items, with indices. -/
def collectQs : List Json → Nat → Except JsErr (List MCQQuestion)
  | [], _ => Except.ok []
  | item :: rest, i =>
    match parseJSONQuestion item i with
    | Except.error e => Except.error e
    | Except.ok q? =>
      match collectQs rest (i + 1) with
      | Except.error e => Except.error e
      | Except.ok t =>
        Except.ok (match q? with | some q => q :: t | none => t)

/-- `parseJSONFormat(data)`.  The accesses `data.question` /
`data.options` / `data.questions` throw only when `data` is `null` (the
first access throws before anything else happens); on an object they are
`lookupField`, on any other value they yield `undefined` (falsy, not an
array), which lands every non-object non-array in the empty result. -/
def parseJSONFormat (data : Json) : Except JsErr (List MCQQuestion) :=
  match data with
  | Json.null => Except.error JsErr.typeError
  | Json.obj fs =>
    if truthy (lookupField fs qKey) && truthy (lookupField fs oKey) then
      match parseJSONQuestion (Json.obj fs) 0 with
      | Except.error e => Except.error e
      | Except.ok (some q) => Except.ok [q]
      | Except.ok none => Except.ok []
    else
      match lookupField fs questionsKey with
      | some (Json.arr l) => collectQs l 0
      | _ => Except.ok []
  | Json.arr l => collectQs l 0
  | _ => Except.ok []

/-! ## The Structured-Header Parser (`parseStructuredFormat`)

Label lines are recognized by the source's regular expressions
`\*\*<Kw>:\*\*|<Kw>:\s*-+` (case-insensitive, searched anywhere in the
line for tests, leftmost match for extraction); the trailing-text capture
`\s*(.+)` is embedded with the backtracking behaviour of the concrete
pattern. -/

def qkw : Str := strL "question"
def optskw : Str := strL "options"
def cakw : Str := strL "correct answer"
def reaskw : Str := strL "reasoning"

/-- `\s*-+` succeeds here iff after optional whitespace a dash follows
(the only way the greedy/backtracking pattern can match). -/
def dashAfterWs : Str → Bool
  | [] => false
  | c :: rest => if c = '-' then true else if jsWs c then dashAfterWs rest else false

/-- `**<kw>:**` matches at the head of `cs` (case-insensitive). -/
def starLabelAt (kw : Str) (cs : Str) : Bool :=
  ciStarts ('*' :: '*' :: (kw ++ [':', '*', '*'])) cs

/-- `<kw>:\s*-+` matches at the head of `cs` (case-insensitive). -/
def dashLabelAt (kw : Str) (cs : Str) : Bool :=
  ciStarts (kw ++ [':']) cs && dashAfterWs (cs.drop (kw.length + 1))

def labelAt (kw : Str) (cs : Str) : Bool := starLabelAt kw cs || dashLabelAt kw cs

/-- `.test` / `.match` of `\*\*<kw>:\*\*|<kw>:\s*-+` anywhere in `cs`. -/
def hasLabel (kw : Str) : Str → Bool
  | [] => false
  | cs@(_ :: rest) => labelAt kw cs || hasLabel kw rest

/-- The capture of `\s*(.+)` applied to `rest` (the text after a matched
label): `\s*` is greedy but backtracks so that `(.+)` gets at least one
(non-newline) character; fails iff `rest` is empty. -/
def tailCapture (rest : Str) : Option Str :=
  if rest = [] then none
  else if rest.dropWhile jsWs = [] then some [rest.reverse.headD ' ']
  else some (rest.dropWhile jsWs)

/-- One attempt of `(?:\*\*<kw>:\*\*|<kw>:\s*-+)\s*(.+)` at the head of
`cs`: alternative 1 first, then alternative 2, where inside alternative 2
the greedy `-+` gives one dash back to `(.+)` when nothing follows the
dashes. -/
def extractAt (kw : Str) (cs : Str) : Option Str :=
  (if starLabelAt kw cs then tailCapture (cs.drop (kw.length + 5)) else none) <|>
  (if ciStarts (kw ++ [':']) cs then
     let afterW := (cs.drop (kw.length + 1)).dropWhile jsWs
     let d := afterW.takeWhile (fun c => c = '-')
     if d = [] then none
     else
       match tailCapture (afterW.dropWhile (fun c => c = '-')) with
       | some g => some g
       | none => if 2 ≤ d.length then some ['-'] else none
   else none)

/-- Leftmost match of `(?:\*\*<kw>:\*\*|<kw>:\s*-+)\s*(.+)`, returning
the raw capture group. -/
def extractKw (kw : Str) : Str → Option Str
  | [] => none
  | cs@(_ :: rest) =>
    match extractAt kw cs with
    | some g => some g
    | none => extractKw kw rest

/-- The `###\s*✅\s*\*\*Correct Answer:\*\*` alternative of the
Correct-Answer test, searched anywhere in the line. -/
def caHashAt (cs : Str) : Bool :=
  if ciStarts (strL "###") cs then
    match (cs.drop 3).dropWhile jsWs with
    | '✅' :: r2 => ciStarts ('*' :: '*' :: (cakw ++ [':', '*', '*'])) (r2.dropWhile jsWs)
    | _ => false
  else false

def caHashAnywhere : Str → Bool
  | [] => false
  | cs@(_ :: rest) => caHashAt cs || caHashAnywhere rest

def lineIsQ (l : Str) : Bool := hasLabel qkw l
def lineIsOpts (l : Str) : Bool := hasLabel optskw l
def lineIsCA (l : Str) : Bool := hasLabel cakw l || caHashAnywhere l
def lineIsReas (l : Str) : Bool := hasLabel reaskw l

/-- The custom-label pattern `^(.+?):\s*-+`: lazy `(.+?)` means the first
colon position (at index ≥ 1 in the regex sense: non-empty prefix) whose
suffix passes `\s*-+`; returns the captured prefix. -/
def customAux : Str → Str → Option Str
  | _, [] => none
  | acc, c :: rest =>
    if c = ':' && acc ≠ [] && dashAfterWs rest then some acc.reverse
    else customAux (c :: acc) rest

def customLabel (l : Str) : Option Str := customAux [] l

/-- The section tag (`currentSection`), initially the empty string. -/
inductive Sect where
  | blank | question | options | answer | reasoning | additional
deriving DecidableEq

/-- The mutable locals of one block scan of `parseStructuredFormat`. -/
structure SState where
  question : Str := []
  options : List Str := []
  correctAnswer : Nat := 0
  explanation : Str := []
  additionalSections : List SectionEntry := []
  currentSection : Sect := Sect.blank
  curTitle : Str := []
  curContent : Str := []

/-- Flush of a pending custom section (performed before an Options label,
before a new custom label, and at block end). -/
def flushPending (s : SState) : SState :=
  if s.currentSection = Sect.additional ∧ s.curTitle ≠ [] ∧ s.curContent ≠ [] then
    { s with additionalSections :=
        s.additionalSections ++ [⟨s.curTitle, trimS s.curContent⟩] }
  else s

def appendNl (a b : Str) : Str := if a = [] then b else a ++ '\n' :: b

/-- Question-label line: switch section; same-line trailing text (stripped
of bold markup, trimmed) becomes the question text when the extraction
regex matches. -/
def sQBranch (s : SState) (line : Str) : SState :=
  { s with currentSection := Sect.question
           question := match extractKw qkw line with
                       | some g => trimS (stripStars g)
                       | none => s.question }

/-- Correct-Answer-label line: switch section; resolve same-line text
against the options collected so far by bidirectional case-insensitive
substring match. -/
def sCABranch (s : SState) (line : Str) : SState :=
  match extractKw cakw line with
  | some g =>
    match findIdxO (fun opt =>
        includesS (lowerS opt) (lowerS (trimS (stripStars g))) ||
        includesS (lowerS (trimS (stripStars g))) (lowerS opt)) s.options with
    | some i => { s with currentSection := Sect.answer, correctAnswer := i }
    | none => { s with currentSection := Sect.answer }
  | none => { s with currentSection := Sect.answer }

/-- Reasoning-label line. -/
def sReasBranch (s : SState) (line : Str) : SState :=
  { s with currentSection := Sect.reasoning
           explanation := match extractKw reaskw line with
                          | some g => trimS g
                          | none => s.explanation }

/-- New custom label: flush any pending section, then start a new one. -/
def sCustomBranch (s : SState) (t : Str) : SState :=
  let s1 := flushPending s
  { s1 with currentSection := Sect.additional
            curTitle := trimS t
            curContent := [] }

/-- A non-label line, dispatched on the current section. -/
def sContent (s : SState) (line : Str) : SState :=
  match s.currentSection with
  | Sect.question =>
    if s.question = [] then { s with question := trimS (stripStars line) } else s
  | Sect.options =>
    match line with
    | '-' :: restL =>
      { s with options := s.options ++ [trimS (stripGlyph (stripStars (trimS (restL.dropWhile jsWs))))]
               correctAnswer :=
                 if line.contains '✅' then
                   (s.options ++ [trimS (stripGlyph (stripStars (trimS (restL.dropWhile jsWs))))]).length - 1
                 else s.correctAnswer }
    | _ => s
  | Sect.answer =>
    match findIdxO (fun opt =>
        includesS (lowerS opt) (lowerS (trimS (stripStars line))) ||
        includesS (lowerS (trimS (stripStars line))) (lowerS opt)) s.options with
    | some i => { s with correctAnswer := i }
    | none => s
  | Sect.reasoning => { s with explanation := appendNl s.explanation line }
  | Sect.additional => { s with curContent := appendNl s.curContent line }
  | Sect.blank => s

/-- Processing of one (trimmed, non-empty) line of a block. -/
def sLine (s : SState) (line : Str) : SState :=
  if lineIsQ line then sQBranch s line
  else if lineIsOpts line then { flushPending s with currentSection := Sect.options }
  else if lineIsCA line then sCABranch s line
  else if lineIsReas line then sReasBranch s line
  else
    match customLabel line with
    | some t => sCustomBranch s t
    | none => sContent s line

/-- End of block: flush a pending custom section; a question results only
when both a non-empty question text and at least one option were
collected. -/
def sFinish (s : SState) (index : Nat) : Option MCQQuestion :=
  if (flushPending s).question ≠ [] ∧ (flushPending s).options ≠ [] then
    some { id := qId index
           question := Json.str (flushPending s).question
           options := (flushPending s).options
           correctAnswer := (flushPending s).correctAnswer
           explanation := if (flushPending s).explanation ≠ [] then
                            some (Json.str (flushPending s).explanation)
                          else none
           additionalSections := if (flushPending s).additionalSections ≠ [] then
                                   some (flushPending s).additionalSections
                                 else none }
  else none

/-- One block of the `forEach`: skipped unless the Question-label pattern
occurs somewhere in the block. -/
def parseBlock (block : Str) (index : Nat) : Option MCQQuestion :=
  if hasLabel qkw block then
    sFinish (((splitNl block).map trimS).filter (fun l => l ≠ []) |>.foldl sLine {}) index
  else none

/-- The lookahead split `text.split(/(?=\*\*Question:\*\*|Question:\s*-+)/i)`:
a cut before every position (other than the start) where the pattern
matches. -/
def splitBlocksAux : Str → Str → List Str
  | [], acc => [acc.reverse]
  | c :: rest, acc =>
    if acc ≠ [] ∧ labelAt qkw (c :: rest) then
      acc.reverse :: splitBlocksAux rest [c]
    else splitBlocksAux rest (c :: acc)

def splitBlocks (text : Str) : List Str :=
  (splitBlocksAux text []).filter (fun b => trimS b ≠ [])

def parseBlocks : List Str → Nat → List MCQQuestion
  | [], _ => []
  | b :: rest, i =>
    match parseBlock b i with
    | some q => q :: parseBlocks rest (i + 1)
    | none => parseBlocks rest (i + 1)

/-- `parseStructuredFormat(text)`. -/
def parseStructuredFormat (text : Str) : List MCQQuestion :=
  parseBlocks (splitBlocks text) 0

/-! ## The Line-Pattern Parser (the fallback inside `parseMCQText`)

`questionCounter` is seeded from `Date.now()`; the wall-clock value at
invocation is the explicit parameter `now` of `parseMCQText`. -/

/-- `^\d+\.?\s`: leading digits, optional dot, one whitespace character;
returns the remainder after the match (greedy, with the backtracking the
pattern admits). -/
def digitAlt (l : Str) : Option Str :=
  let ds := l.takeWhile Char.isDigit
  if ds = [] then none
  else
    match l.drop ds.length with
    | '.' :: c :: rest => if jsWs c then some rest else none
    | c :: rest => if jsWs c then some rest else none
    | [] => none

/-- `^Q\d*\.?\s` (case-insensitive). -/
def qAlt (l : Str) : Option Str :=
  match l with
  | c :: rest =>
    if c = 'Q' || c = 'q' then
      match rest.dropWhile Char.isDigit with
      | '.' :: c2 :: rest2 => if jsWs c2 then some rest2 else none
      | c2 :: rest2 => if jsWs c2 then some rest2 else none
      | [] => none
    else none
  | [] => none

/-- `line.replace(/^\d+\.?\s|^Q\d*\.?\s/i, "").trim()`: the first
alternative is tried first. -/
def stripQNum (l : Str) : Str :=
  match digitAlt l with
  | some rest => trimS rest
  | none =>
    match qAlt l with
    | some rest => trimS rest
    | none => trimS l

def isLetterAD (c : Char) : Bool :=
  ('A' ≤ c && c ≤ 'D') || ('a' ≤ c && c ≤ 'd')

/-- `^[A-Da-d][.)]\s`. -/
def optLineTest (l : Str) : Bool :=
  match l with
  | c1 :: c2 :: c3 :: _ => isLetterAD c1 && (c2 == '.' || c2 == ')') && jsWs c3
  | _ => false

/-- `^(Answer|Correct|Ans):\s*[A-Da-d]` (case-insensitive). -/
def ansLineTest (l : Str) : Bool :=
  let after (kw : Str) : Bool :=
    ciStarts (kw ++ [':']) l &&
      (match (l.drop (kw.length + 1)).dropWhile jsWs with
       | c :: _ => isLetterAD c
       | [] => false)
  after (strL "answer") || after (strL "correct") || after (strL "ans")

/-- `line.match(/[A-Da-d]/)`: the first character of the whole line that
lies in the class (this is how the source extracts the answer letter). -/
def firstAD (l : Str) : Option Char := l.find? isLetterAD

/-- `^(Explanation|Reason|Why):` (case-insensitive). -/
def explAlt (l : Str) : Option Str :=
  if ciStarts (strL "explanation:") l then some (l.drop 12)
  else if ciStarts (strL "reason:") l then some (l.drop 7)
  else if ciStarts (strL "why:") l then some (l.drop 4)
  else none

/-- The in-progress question of the line-pattern scan
(`currentQuestion`, a partial record). -/
structure PQ where
  question : Option Str := none
  options : Option (List Str) := none
  correctAnswer : Nat := 0
  explanation : Option Str := none

/-- `currentQuestion.question && currentQuestion.options` (an empty string
is falsy, an empty array is truthy). -/
def pqFlushable (cq : PQ) : Bool :=
  (match cq.question with | some q => q ≠ [] | none => false) && cq.options.isSome

def mkLQ (ctr : Nat) (cq : PQ) : MCQQuestion :=
  { id := qId ctr
    question := Json.str (cq.question.getD [])
    options := cq.options.getD []
    correctAnswer := cq.correctAnswer
    explanation := (cq.explanation.map Json.str) }

structure LPState where
  cq : PQ := {}
  ctr : Nat := 0
  acc : List MCQQuestion := []

/-- One iteration of the line loop (the loop body first trims the raw
line). -/
def lpStep (st : LPState) (rawLine : Str) : LPState :=
  let line := trimS rawLine
  if (digitAlt line).isSome || (qAlt line).isSome then
    { cq := { question := some (stripQNum line), options := some [],
              correctAnswer := 0 }
      ctr := if pqFlushable st.cq then st.ctr + 1 else st.ctr
      acc := if pqFlushable st.cq then st.acc ++ [mkLQ st.ctr st.cq] else st.acc }
  else if optLineTest line then
    { st with cq := { st.cq with
        options := some ((st.cq.options.getD []) ++ [trimS (line.drop 3)])
        correctAnswer := if line.contains '*' || line.contains '✓' then
                           ((st.cq.options.getD []) ++ [trimS (line.drop 3)]).length - 1
                         else st.cq.correctAnswer } }
  else if ansLineTest line then
    match firstAD line with
    | some c => { st with cq := { st.cq with
                    correctAnswer := c.toUpper.toNat - 65 } }
    | none => st
  else
    match explAlt line with
    | some rest =>
      { st with cq := { st.cq with
          explanation := some (trimS (rest.dropWhile jsWs)) } }
    | none => st

/-- The final flush after the last line. -/
def lpFinish (st : LPState) : List MCQQuestion :=
  if pqFlushable st.cq then st.acc ++ [mkLQ st.ctr st.cq] else st.acc

def lineParse (now : Nat) (text : Str) : List MCQQuestion :=
  let lines := (splitNl text).filter (fun l => trimS l ≠ [])
  lpFinish (lines.foldl lpStep { ctr := now })

/-- `parseMCQText(text)`: the structured parser first, the line-pattern
fallback otherwise; `now` is the `Date.now()` value read at invocation. -/
def parseMCQText (now : Nat) (text : Str) : List MCQQuestion :=
  match parseStructuredFormat text with
  | [] => lineParse now text
  | q :: rest => q :: rest

/-! ## Predicates used in the statements of the theorems -/

/-- The correct-answer invariant maintained across a block scan. -/
def caInv (s : SState) : Prop :=
  s.correctAnswer = 0 ∨ s.correctAnswer < s.options.length

/-- Erasure of the `id` field (the only field derived from the
`Date.now()` seed). -/
def stripId (q : MCQQuestion) : MCQQuestion := { q with id := [] }

/-- The minimal shape check of `parseJSONQuestion`: truthy `question`
field and `options` field holding an array. -/
def shapeOkJ : Json → Bool
  | Json.obj fs =>
    truthy (lookupField fs qKey) &&
      (match lookupField fs oKey with
       | some (Json.arr _) => true
       | _ => false)
  | _ => false

def isStrJ : Json → Bool
  | Json.str _ => true
  | _ => false

/-- The `correct_answer` field cannot make the resolution throw: it is
absent, falsy, or a string. -/
def caSafe (fs : List (Str × Json)) : Bool :=
  !truthy (lookupField fs caKey) || isStrJ ((lookupField fs caKey).getD Json.null)

/-- Sufficient condition for one item not to make `parseJSONQuestion`
throw: it is not `null`, and when it passes the shape check all its
options are strings and its `correct_answer`, when present and truthy, is
a string. -/
def itemSafe : Json → Bool
  | Json.null => false
  | Json.obj fs =>
    if truthy (lookupField fs qKey) then
      match lookupField fs oKey with
      | some (Json.arr oj) => oj.all isStrJ && caSafe fs
      | _ => true
    else true
  | _ => true

/-- Sufficient condition for `parseJSONFormat` not to throw on a decoded
value: not `null`, and every item reached by the branch taken is safe. -/
def dataSafe : Json → Bool
  | Json.null => false
  | Json.arr l => l.all itemSafe
  | Json.obj fs =>
    if truthy (lookupField fs qKey) && truthy (lookupField fs oKey) then
      itemSafe (Json.obj fs)
    else
      match lookupField fs questionsKey with
      | some (Json.arr l) => l.all itemSafe
      | _ => true
  | _ => true

/-- A decoded value matching none of the three recognized shapes (and for
which shape dispatch itself cannot throw). -/
def shapeMismatch : Json → Bool
  | Json.null => false
  | Json.arr _ => false
  | Json.obj fs =>
    !(truthy (lookupField fs qKey) && truthy (lookupField fs oKey)) &&
      (match lookupField fs questionsKey with
       | some (Json.arr _) => false
       | _ => true)
  | _ => true

/-! ## Helper lemmas -/

theorem findIdxO_lt_length {p : α → Bool} :
    ∀ {l : List α} {i : Nat}, findIdxO p l = some i → i < l.length := by
  intro l
  induction l with
  | nil => intro i h; simp [findIdxO] at h
  | cons a as ih =>
    intro i h
    unfold findIdxO at h
    split at h
    · cases h; simp
    · cases hf : findIdxO p as with
      | none => rw [hf] at h; simp at h
      | some j =>
        rw [hf] at h
        simp only [Option.map_some'] at h
        cases h
        exact Nat.succ_lt_succ (ih hf)

theorem glyphScan_lt :
    ∀ (os : List Str) (i acc n : Nat), acc < n → i + os.length ≤ n →
      glyphScan os i acc < n := by
  intro os
  induction os with
  | nil => intro i acc n h _; exact h
  | cons o rest ih =>
    intro i acc n h hlen
    simp only [List.length_cons] at hlen
    unfold glyphScan
    apply ih
    · split
      · omega
      · exact h
    · omega

theorem glyphScan_none :
    ∀ (os : List Str) (i acc : Nat), os.any optHasGlyph = false →
      glyphScan os i acc = acc := by
  intro os
  induction os with
  | nil => intro i acc _; rfl
  | cons o rest ih =>
    intro i acc h
    simp only [List.any_cons, Bool.or_eq_false_iff] at h
    unfold glyphScan
    rw [if_neg (by simp [h.1]), ih _ _ h.2]

theorem noGlyph_any {os : List Str} (h : ∀ o ∈ os, optHasGlyph o = false) :
    os.any optHasGlyph = false := by
  induction os with
  | nil => rfl
  | cons o rest ih =>
    simp only [List.any_cons, Bool.or_eq_false_iff]
    exact ⟨h o (List.mem_cons_self o rest), ih fun x hx => h x (List.mem_cons_of_mem o hx)⟩

theorem any_of_get {os : List Str} {k : Nat} (hk : k < os.length)
    (hg : optHasGlyph (os.get ⟨k, hk⟩) = true) : os.any optHasGlyph = true := by
  rw [List.any_eq_true]
  exact ⟨os.get ⟨k, hk⟩, List.get_mem os k hk, hg⟩

/-- When the last glyph-bearing option sits at index `k`, the glyph fold
returns `i + k` (irrespective of the accumulator). -/
theorem glyphScan_last :
    ∀ (os : List Str) (k : Nat) (hk : k < os.length),
      optHasGlyph (os.get ⟨k, hk⟩) = true →
      (∀ j (hj : j < os.length), k < j → optHasGlyph (os.get ⟨j, hj⟩) = false) →
      ∀ (i acc : Nat), glyphScan os i acc = i + k := by
  intro os
  induction os with
  | nil => intro k hk; exact absurd hk (by simp)
  | cons o rest ih =>
    intro k hk hg hafter i acc
    cases k with
    | zero =>
      have hrest : rest.any optHasGlyph = false := by
        apply noGlyph_any
        intro x hx
        obtain ⟨⟨j, hj⟩, hget⟩ := List.mem_iff_get.mp hx
        have h2 := hafter (j + 1) (Nat.succ_lt_succ hj) (Nat.succ_pos j)
        rw [← hget]
        simpa using h2
      unfold glyphScan
      rw [if_pos (by simpa using hg), glyphScan_none rest _ _ hrest]
      omega
    | succ k' =>
      have hk' : k' < rest.length := Nat.lt_of_succ_lt_succ hk
      unfold glyphScan
      rw [ih k' hk' (by simpa using hg)
            (fun j hj hlt => by
              have := hafter (j + 1) (Nat.succ_lt_succ hj) (Nat.succ_lt_succ hlt)
              simpa using this)
            (i + 1) _]
      omega

theorem trimS_nil : trimS [] = [] := rfl

theorem ne_nil_of_trimS_ne_nil {s : Str} (h : trimS s ≠ []) : s ≠ [] := by
  intro hs; exact h (hs ▸ trimS_nil)

/-! ## Invariant of the structured-header block scan -/

theorem caInv_flush {s : SState} (h : caInv s) : caInv (flushPending s) := by
  unfold flushPending
  split
  · exact h
  · exact h

theorem caInv_push {s : SState} {o : Str} {b : Bool} (h : caInv s) :
    caInv { s with options := s.options ++ [o],
                   correctAnswer := if b then (s.options ++ [o]).length - 1
                                    else s.correctAnswer } := by
  unfold caInv at h ⊢
  simp only [List.length_append, List.length_cons, List.length_nil]
  split
  · omega
  · omega

theorem caInv_sLine {s : SState} (line : Str) (h : caInv s) :
    caInv (sLine s line) := by
  unfold sLine
  split
  · exact h
  · split
    · exact caInv_flush h
    · split
      · unfold sCABranch
        cases hE : extractKw cakw line with
        | none => exact h
        | some g =>
          dsimp only
          cases hF : findIdxO (fun opt =>
              includesS (lowerS opt) (lowerS (trimS (stripStars g))) ||
              includesS (lowerS (trimS (stripStars g))) (lowerS opt)) s.options with
          | none => exact h
          | some i => exact Or.inr (findIdxO_lt_length hF)
      · split
        · exact h
        · split
          · exact caInv_flush h
          · unfold sContent
            split
            · split
              · exact h
              · exact h
            · split
              · exact caInv_push h
              · exact h
            · cases hF : findIdxO (fun opt =>
                  includesS (lowerS opt) (lowerS (trimS (stripStars line))) ||
                  includesS (lowerS (trimS (stripStars line))) (lowerS opt)) s.options with
              | none => exact h
              | some i => exact Or.inr (findIdxO_lt_length hF)
            · exact h
            · exact h
            · exact h

theorem caInv_foldl :
    ∀ (lines : List Str) (s : SState), caInv s → caInv (lines.foldl sLine s) := by
  intro lines
  induction lines with
  | nil => intro s h; exact h
  | cons l ls ih => intro s h; exact ih _ (caInv_sLine l h)

theorem sFinish_inv {s : SState} {i : Nat} {q : MCQQuestion}
    (h : caInv s) (hf : sFinish s i = some q) :
    1 ≤ q.options.length ∧ q.correctAnswer < q.options.length := by
  have h1 : caInv (flushPending s) := caInv_flush h
  unfold sFinish at hf
  split at hf
  case isTrue hcond =>
    simp only [Option.some.injEq] at hf
    subst hf
    have hlen : 0 < (flushPending s).options.length :=
      List.length_pos.mpr hcond.2
    refine ⟨hlen, ?_⟩
    rcases h1 with h0 | hlt
    · have : (flushPending s).correctAnswer < (flushPending s).options.length := by
        rw [h0]; exact hlen
      exact this
    · exact hlt
  case isFalse => simp at hf

theorem parseBlock_inv {b : Str} {i : Nat} {q : MCQQuestion}
    (h : parseBlock b i = some q) :
    1 ≤ q.options.length ∧ q.correctAnswer < q.options.length := by
  unfold parseBlock at h
  split at h
  · exact sFinish_inv (caInv_foldl _ _ (Or.inl rfl)) h
  · simp at h

theorem parseBlocks_inv :
    ∀ (bs : List Str) (i : Nat) (q : MCQQuestion), q ∈ parseBlocks bs i →
      1 ≤ q.options.length ∧ q.correctAnswer < q.options.length := by
  intro bs
  induction bs with
  | nil => intro i q h; simp [parseBlocks] at h
  | cons b rest ih =>
    intro i q h
    unfold parseBlocks at h
    split at h
    next q' hpb =>
      rcases List.mem_cons.mp h with rfl | hmem
      · exact parseBlock_inv hpb
      · exact ih _ _ hmem
    next => exact ih _ _ h

/-! ## Inversion of a successful `parseJSONQuestion` -/

theorem pjq_inv {item : Json} {i : Nat} {q : MCQQuestion}
    (h : parseJSONQuestion item i = Except.ok (some q)) :
    ∃ fs oj os ca, item = Json.obj fs ∧
      truthy (lookupField fs qKey) = true ∧
      lookupField fs oKey = some (Json.arr oj) ∧
      asStrings oj = Except.ok os ∧
      resolveCA fs os = Except.ok ca ∧
      q = mkJQ fs os ca i := by
  cases item with
  | null => simp [parseJSONQuestion] at h
  | bool b => simp [parseJSONQuestion] at h
  | num n => simp [parseJSONQuestion] at h
  | str s => simp [parseJSONQuestion] at h
  | arr l => simp [parseJSONQuestion] at h
  | obj fs =>
    simp only [parseJSONQuestion] at h
    split at h
    case isTrue ht =>
      split at h
      next oj heq =>
        split at h
        next os heq2 =>
          split at h
          next ca heq3 =>
            simp only [Except.ok.injEq, Option.some.injEq] at h
            exact ⟨fs, oj, os, ca, rfl, ht, heq, heq2, heq3, h.symm⟩
          next e heq3 => simp at h
        next e heq2 => simp at h
      next hne => simp at h
    case isFalse => simp at h

theorem resolveCA_lt {fs : List (Str × Json)} {os : List Str} {ca : Nat}
    (h : resolveCA fs os = Except.ok ca) (hne : os ≠ []) : ca < os.length := by
  have hlen : 0 < os.length := List.length_pos.mpr hne
  have hscan : glyphScan os 0 0 < os.length :=
    glyphScan_lt os 0 0 _ hlen (by omega)
  unfold resolveCA at h
  split at h
  · have he : glyphScan os 0 0 = ca := by simpa using h
    exact he ▸ hscan
  · split at h
    · split at h
      next s heq =>
        have he : (match findIdxO (caMatch (trimS (lowerS s))) (os.map cleanOpt) with
                   | some m => m
                   | none => glyphScan os 0 0) = ca := by simpa using h
        cases hf : findIdxO (caMatch (trimS (lowerS s))) (os.map cleanOpt) with
        | some m =>
          rw [hf] at he
          have := findIdxO_lt_length hf
          rw [List.length_map] at this
          exact he ▸ this
        | none =>
          rw [hf] at he
          exact he ▸ hscan
      next => simp at h
    · have he : glyphScan os 0 0 = ca := by simpa using h
      exact he ▸ hscan

/-! ## Claim C1, amended -/

/-- C1 (amended): every question produced by the structured-header parser
has a non-empty options list and a `correctAnswer` that is a valid index
into it; the JSON extractor guarantees the valid index whenever the
produced options list is non-empty.  (The line-pattern parser offers
neither guarantee, and the JSON extractor accepts an empty options array:
see the counterexample.) -/
theorem claim_C1_amended :
    (∀ (text : Str) (q : MCQQuestion), q ∈ parseStructuredFormat text →
      1 ≤ q.options.length ∧ q.correctAnswer < q.options.length) ∧
    (∀ (item : Json) (i : Nat) (q : MCQQuestion),
      parseJSONQuestion item i = Except.ok (some q) →
      q.options ≠ [] → q.correctAnswer < q.options.length) := by
  constructor
  · intro text q hq
    exact parseBlocks_inv _ _ q hq
  · intro item i q h hne
    obtain ⟨fs, oj, os, ca, _, _, _, _, hca, rfl⟩ := pjq_inv h
    have hos : os ≠ [] := by
      intro h0
      apply hne
      simp [mkJQ, h0]
    have hlt := resolveCA_lt hca hos
    simpa [mkJQ] using hlt

/-- C1 witness: the structured block `**Question:** Q / **Options:** /
- A / - B` produces a question satisfying the invariant. -/
theorem claim_C1_witness :
    1 ≤ ({ id := strL "q-0", question := Json.str (strL "Q"),
           options := [strL "A", strL "B"], correctAnswer := 0 } : MCQQuestion).options.length ∧
    ({ id := strL "q-0", question := Json.str (strL "Q"),
       options := [strL "A", strL "B"], correctAnswer := 0 } : MCQQuestion).correctAnswer <
      ({ id := strL "q-0", question := Json.str (strL "Q"),
         options := [strL "A", strL "B"], correctAnswer := 0 } : MCQQuestion).options.length :=
  claim_C1_amended.1 (strL "**Question:** Q\n**Options:**\n- A\n- B") _
    (by rw [show parseStructuredFormat (strL "**Question:** Q\n**Options:**\n- A\n- B") =
          [{ id := strL "q-0", question := Json.str (strL "Q"),
             options := [strL "A", strL "B"], correctAnswer := 0 }] from rfl]
        exact List.mem_singleton_self _)

theorem pjq_ok_elim {fs : List (Str × Json)} {oj : List Json} {os : List Str}
    {i : Nat} {q : MCQQuestion}
    (ho : lookupField fs oKey = some (Json.arr oj))
    (hos : asStrings oj = Except.ok os)
    (hq : parseJSONQuestion (Json.obj fs) i = Except.ok (some q)) :
    ∃ ca, resolveCA fs os = Except.ok ca ∧ q = mkJQ fs os ca i := by
  obtain ⟨fs', oj', os', ca, hobj, ht, ho', hos', hca, hmk⟩ := pjq_inv hq
  injection hobj with e
  subst e
  rw [ho] at ho'
  injection ho' with e2
  injection e2 with e3
  subst e3
  rw [hos] at hos'
  injection hos' with e4
  subst e4
  exact ⟨ca, hca, hmk⟩

theorem resolveCA_glyph {fs : List (Str × Json)} {os : List Str} {k : Nat}
    (hk : k < os.length) (hg : optHasGlyph (os.get ⟨k, hk⟩) = true)
    (hafter : ∀ j (hj : j < os.length), k < j → optHasGlyph (os.get ⟨j, hj⟩) = false) :
    resolveCA fs os = Except.ok k := by
  unfold resolveCA
  rw [if_pos (any_of_get hk hg), glyphScan_last os k hk hg hafter 0 0, Nat.zero_add]

theorem resolveCA_find {fs : List (Str × Json)} {os : List Str} {s : Str} {m : Nat}
    (hng : os.any optHasGlyph = false)
    (hcaf : lookupField fs caKey = some (Json.str s)) (hsne : s ≠ [])
    (hfind : findIdxO (caMatch (trimS (lowerS s))) (os.map cleanOpt) = some m) :
    resolveCA fs os = Except.ok m := by
  unfold resolveCA
  rw [if_neg (by simp [hng]), if_pos (by rw [hcaf]; simpa [truthy] using hsne), hcaf]
  dsimp only
  rw [hfind]

theorem resolveCA_default {fs : List (Str × Json)} {os : List Str}
    (hng : os.any optHasGlyph = false)
    (hdef : truthy (lookupField fs caKey) = false ∨
            ∃ s, lookupField fs caKey = some (Json.str s) ∧
              findIdxO (caMatch (trimS (lowerS s))) (os.map cleanOpt) = none) :
    resolveCA fs os = Except.ok 0 := by
  unfold resolveCA
  rw [if_neg (by simp [hng])]
  rcases hdef with hf | ⟨s, hcaf, hfind⟩
  · rw [if_neg (by simp [hf]), glyphScan_none os 0 0 hng]
  · by_cases hs : s = []
    · subst hs
      rw [if_neg (by rw [hcaf]; simp [truthy]), glyphScan_none os 0 0 hng]
    · rw [if_pos (by rw [hcaf]; simpa [truthy] using hs), hcaf]
      dsimp only
      rw [hfind]
      dsimp only
      rw [glyphScan_none os 0 0 hng]

/-! ## Claim C3 -/

/-- C3: per-item `correctAnswer` resolution follows the priority order:
(a) a (unique) glyph-bearing option's position wins and the glyph is
stripped from every stored option; (b) otherwise a `correct_answer` text
field resolved by case-insensitive bidirectional substring containment
wins; (c) otherwise (field absent or falsy, or no option matches) the
default is 0. -/
theorem claim_C3_priority :
    (∀ (fs : List (Str × Json)) (i : Nat) (q : MCQQuestion) (oj : List Json)
       (os : List Str) (k : Nat),
      lookupField fs oKey = some (Json.arr oj) →
      asStrings oj = Except.ok os →
      parseJSONQuestion (Json.obj fs) i = Except.ok (some q) →
      ∀ (hk : k < os.length), optHasGlyph (os.get ⟨k, hk⟩) = true →
      (∀ j (hj : j < os.length), j ≠ k → optHasGlyph (os.get ⟨j, hj⟩) = false) →
      q.correctAnswer = k ∧ q.options = os.map cleanOpt) ∧
    (∀ (fs : List (Str × Json)) (i : Nat) (q : MCQQuestion) (oj : List Json)
       (os : List Str) (s : Str) (m : Nat),
      lookupField fs oKey = some (Json.arr oj) →
      asStrings oj = Except.ok os →
      (∀ o ∈ os, optHasGlyph o = false) →
      lookupField fs caKey = some (Json.str s) → s ≠ [] →
      findIdxO (caMatch (trimS (lowerS s))) (os.map cleanOpt) = some m →
      parseJSONQuestion (Json.obj fs) i = Except.ok (some q) →
      q.correctAnswer = m) ∧
    (∀ (fs : List (Str × Json)) (i : Nat) (q : MCQQuestion) (oj : List Json)
       (os : List Str),
      lookupField fs oKey = some (Json.arr oj) →
      asStrings oj = Except.ok os →
      (∀ o ∈ os, optHasGlyph o = false) →
      (truthy (lookupField fs caKey) = false ∨
       ∃ s, lookupField fs caKey = some (Json.str s) ∧
         findIdxO (caMatch (trimS (lowerS s))) (os.map cleanOpt) = none) →
      parseJSONQuestion (Json.obj fs) i = Except.ok (some q) →
      q.correctAnswer = 0) := by
  refine ⟨?_, ?_, ?_⟩
  · intro fs i q oj os k ho hos hq hk hg huniq
    obtain ⟨ca, hca, rfl⟩ := pjq_ok_elim ho hos hq
    have hres := @resolveCA_glyph fs os k hk hg
      (fun j hj hlt => huniq j hj (ne_of_gt hlt))
    rw [hres] at hca
    injection hca with e
    subst e
    exact ⟨rfl, rfl⟩
  · intro fs i q oj os s m ho hos hng hcaf hsne hfind hq
    obtain ⟨ca, hca, rfl⟩ := pjq_ok_elim ho hos hq
    have hres := @resolveCA_find fs os s m (noGlyph_any hng) hcaf hsne hfind
    rw [hres] at hca
    injection hca with e
    subst e
    rfl
  · intro fs i q oj os ho hos hng hdef hq
    obtain ⟨ca, hca, rfl⟩ := pjq_ok_elim ho hos hq
    have hres := @resolveCA_default fs os (noGlyph_any hng) hdef
    rw [hres] at hca
    injection hca with e
    subst e
    rfl

/-- C3 witness: the spec's substring-fallback example
(`correct_answer: "Paris"`, options `London/Paris/Berlin`, no glyph)
resolves to index 1. -/
theorem claim_C3_witness :
    ({ id := strL "q-0", question := Json.str (strL "Capital?"),
       options := [strL "London", strL "Paris", strL "Berlin"],
       correctAnswer := 1 } : MCQQuestion).correctAnswer = 1 :=
  claim_C3_priority.2.1
    [(strL "question", Json.str (strL "Capital?")),
     (strL "options", Json.arr [Json.str (strL "London"), Json.str (strL "Paris"),
       Json.str (strL "Berlin")]),
     (strL "correct_answer", Json.str (strL "Paris"))]
    0 _
    [Json.str (strL "London"), Json.str (strL "Paris"), Json.str (strL "Berlin")]
    [strL "London", strL "Paris", strL "Berlin"] (strL "Paris") 1
    rfl rfl (by decide) rfl (by decide) (by decide) rfl

/-! ## Claim C10 -/

/-- C10: with several glyph-bearing options, the last one's position wins,
and the glyph is stripped from every stored option text, preserving count
and order. -/
theorem claim_C10_last_glyph :
    ∀ (fs : List (Str × Json)) (i : Nat) (q : MCQQuestion) (oj : List Json)
      (os : List Str) (k : Nat),
      lookupField fs oKey = some (Json.arr oj) →
      asStrings oj = Except.ok os →
      parseJSONQuestion (Json.obj fs) i = Except.ok (some q) →
      ∀ (hk : k < os.length), optHasGlyph (os.get ⟨k, hk⟩) = true →
      (∀ j (hj : j < os.length), k < j → optHasGlyph (os.get ⟨j, hj⟩) = false) →
      q.correctAnswer = k ∧ q.options = os.map cleanOpt ∧
        q.options.length = os.length := by
  intro fs i q oj os k ho hos hq hk hg hafter
  obtain ⟨ca, hca, rfl⟩ := pjq_ok_elim ho hos hq
  have hres := @resolveCA_glyph fs os k hk hg hafter
  rw [hres] at hca
  injection hca with e
  subst e
  exact ⟨rfl, rfl, by simp [mkJQ]⟩

/-- C10 witness: options `a ✅ / b ✅ / c` — the later glyph (index 1)
wins and both stored options are stripped. -/
theorem claim_C10_witness :
    ({ id := strL "q-0", question := Json.str (strL "Q?"),
       options := [strL "a", strL "b", strL "c"],
       correctAnswer := 1 } : MCQQuestion).correctAnswer = 1 ∧
    ({ id := strL "q-0", question := Json.str (strL "Q?"),
       options := [strL "a", strL "b", strL "c"],
       correctAnswer := 1 } : MCQQuestion).options =
      [strL "a ✅", strL "b ✅", strL "c"].map cleanOpt ∧
    ({ id := strL "q-0", question := Json.str (strL "Q?"),
       options := [strL "a", strL "b", strL "c"],
       correctAnswer := 1 } : MCQQuestion).options.length =
      ([strL "a ✅", strL "b ✅", strL "c"] : List Str).length :=
  claim_C10_last_glyph
    [(strL "question", Json.str (strL "Q?")),
     (strL "options", Json.arr [Json.str (strL "a ✅"), Json.str (strL "b ✅"),
       Json.str (strL "c")])]
    0 _
    [Json.str (strL "a ✅"), Json.str (strL "b ✅"), Json.str (strL "c")]
    [strL "a ✅", strL "b ✅", strL "c"] 1
    rfl rfl rfl (by decide) (by decide)
    (fun j hj hlt => by
      have hj3 : j < 3 := hj
      have hj2 : j = 2 := by omega
      subst hj2
      have hgc : ([strL "a ✅", strL "b ✅", strL "c"] : List Str).get ⟨2, hj⟩ =
          strL "c" := rfl
      rw [hgc]
      decide)

/-! ## Claim C2 -/

/-- C2: at the spec's minimal line-pattern example
`1. What is 2+2? / A. 3 / B. 4 / C. 5 / Answer: B`, the parser produces
one question with options `3, 4, 5` but `correctAnswer = 0`, not `1`:
the extraction `line.match(/[A-Da-d]/)` picks the first character of the
whole line that lies in the class, which is the letter `A` of the word
`Answer`. -/
theorem claim_C2_eval :
    parseMCQText 0 (strL "1. What is 2+2?\nA. 3\nB. 4\nC. 5\nAnswer: B") =
      [{ id := strL "q-0", question := Json.str (strL "What is 2+2?"),
         options := [strL "3", strL "4", strL "5"], correctAnswer := 0 }] := by
  rfl

/-! ## Claim C1, counterexample -/

/-- C1 is refuted on the line-pattern input `1. Q1 / 2. Q2 / A. a`: the
first produced question has an empty options list, so neither
`options.length ≥ 1` nor `correctAnswer < options.length` holds for it. -/
theorem claim_C1_counterexample :
    ¬ (∀ q ∈ parseMCQText 0 (strL "1. Q1\n2. Q2\nA. a"),
        1 ≤ q.options.length ∧ q.correctAnswer < q.options.length) := by
  intro h
  have e : parseMCQText 0 (strL "1. Q1\n2. Q2\nA. a") =
      [{ id := strL "q-0", question := Json.str (strL "Q1"),
         options := [], correctAnswer := 0 },
       { id := strL "q-1", question := Json.str (strL "Q2"),
         options := [strL "a"], correctAnswer := 0 }] := rfl
  rw [e] at h
  have h1 := h _ (List.mem_cons_self _ _)
  exact absurd h1.1 (by simp)

/-! ## Claim C4, counterexample -/

/-- C4 is refuted at the decoded JSON value `null`: `parseJSONFormat`
throws a `TypeError` (the source evaluates `data.question` on `null`)
instead of returning an empty sequence. -/
theorem claim_C4_counterexample :
    isOkE (parseJSONFormat Json.null) = false := rfl

/-! ## Claim C6, counterexample -/

/-- C6 is refuted at the array `[null]`: the element fails the minimal
shape check (it has no truthy `question`), yet it is not silently
skipped — `parseJSONQuestion` throws a `TypeError` on it. -/
theorem claim_C6_counterexample :
    isOkE (parseJSONFormat (Json.arr [Json.null])) = false := rfl

/-! ## Claim C5, counterexample -/

/-- C5 is refuted on a block whose Correct-Answer label follows the
options: the glyph marks option 0 (`Alpha ✅`), but the label text
`Beta` resolves to option 1 and, being processed later, wins. -/
theorem claim_C5_counterexample :
    parseStructuredFormat
        (strL "**Question:** Q\n**Options:**\n- Alpha ✅\n- Beta\n**Correct Answer:** Beta") =
      [{ id := strL "q-0", question := Json.str (strL "Q"),
         options := [strL "Alpha", strL "Beta"], correctAnswer := 1 }] ∧
    (1 : Nat) ≠ 0 := ⟨rfl, by simp⟩

/-! ## Claim C7, counterexample -/

/-- C7 is refuted on a block where a custom section (`Notes`) with title
and content is followed by a Reasoning label: the section-switch does not
flush it and the end-of-block flush only fires while still in the custom
section, so the section is lost — `additionalSections` is absent. -/
theorem claim_C7_counterexample :
    parseStructuredFormat
        (strL "**Question:** Q\n**Options:**\n- A\n- B\nNotes: ----\nsome content\n**Reasoning:** because") =
      [{ id := strL "q-0", question := Json.str (strL "Q"),
         options := [strL "A", strL "B"], correctAnswer := 0,
         explanation := some (Json.str (strL "because")),
         additionalSections := none }] := rfl

/-! ## No-throw analysis of the JSON extractor -/

theorem isStrJ_elim {v : Json} (h : isStrJ v = true) : ∃ s, v = Json.str s := by
  cases v with
  | str s => exact ⟨s, rfl⟩
  | null => simp [isStrJ] at h
  | bool b => simp [isStrJ] at h
  | num n => simp [isStrJ] at h
  | arr l => simp [isStrJ] at h
  | obj fs => simp [isStrJ] at h

theorem asStrings_ok {oj : List Json} (h : oj.all isStrJ = true) :
    ∃ os, asStrings oj = Except.ok os := by
  induction oj with
  | nil => exact ⟨[], rfl⟩
  | cons v rest ih =>
    simp only [List.all_cons, Bool.and_eq_true] at h
    obtain ⟨os, hos⟩ := ih h.2
    obtain ⟨s, rfl⟩ := isStrJ_elim h.1
    refine ⟨s :: os, ?_⟩
    unfold asStrings
    rw [hos]
    rfl

theorem resolveCA_ok {fs : List (Str × Json)} {os : List Str}
    (h : caSafe fs = true) : ∃ ca, resolveCA fs os = Except.ok ca := by
  unfold resolveCA
  by_cases hg : os.any optHasGlyph = true
  · rw [if_pos hg]; exact ⟨_, rfl⟩
  · rw [if_neg hg]
    by_cases htr : truthy (lookupField fs caKey) = true
    · rw [if_pos htr]
      unfold caSafe at h
      rw [htr] at h
      simp only [Bool.not_true, Bool.false_or] at h
      cases hol : lookupField fs caKey with
      | none => rw [hol] at htr; simp [truthy] at htr
      | some v =>
        rw [hol] at h
        simp only [Option.getD_some] at h
        obtain ⟨s, rfl⟩ := isStrJ_elim h
        exact ⟨_, rfl⟩
    · rw [if_neg htr]; exact ⟨_, rfl⟩

theorem itemSafe_ok {item : Json} (h : itemSafe item = true) (i : Nat) :
    ∃ r, parseJSONQuestion item i = Except.ok r := by
  cases item with
  | null => simp [itemSafe] at h
  | bool b => exact ⟨none, rfl⟩
  | num n => exact ⟨none, rfl⟩
  | str s => exact ⟨none, rfl⟩
  | arr l => exact ⟨none, rfl⟩
  | obj fs =>
    simp only [parseJSONQuestion]
    by_cases ht : truthy (lookupField fs qKey) = true
    · rw [if_pos ht]
      simp only [itemSafe] at h
      rw [if_pos ht] at h
      cases hol : lookupField fs oKey with
      | none => exact ⟨none, rfl⟩
      | some v =>
        rw [hol] at h
        cases v with
        | arr oj =>
          have h2 : (oj.all isStrJ && caSafe fs) = true := h
          simp only [Bool.and_eq_true] at h2
          obtain ⟨os, hos⟩ := asStrings_ok h2.1
          obtain ⟨ca, hca⟩ := @resolveCA_ok fs os h2.2
          refine ⟨some (mkJQ fs os ca i), ?_⟩
          show (match asStrings oj with
                | Except.ok os =>
                  match resolveCA fs os with
                  | Except.ok ca => Except.ok (some (mkJQ fs os ca i))
                  | Except.error e => Except.error e
                | Except.error e => Except.error e) =
            Except.ok (some (mkJQ fs os ca i))
          rw [hos]
          show (match resolveCA fs os with
                | Except.ok ca => Except.ok (some (mkJQ fs os ca i))
                | Except.error e => Except.error e) =
            Except.ok (some (mkJQ fs os ca i))
          rw [hca]
        | null => exact ⟨none, rfl⟩
        | bool b => exact ⟨none, rfl⟩
        | num n => exact ⟨none, rfl⟩
        | str s => exact ⟨none, rfl⟩
        | obj fs2 => exact ⟨none, rfl⟩
    · rw [if_neg ht]; exact ⟨none, rfl⟩

theorem collectQs_ok :
    ∀ (l : List Json) (i : Nat), l.all itemSafe = true →
      ∃ qs, collectQs l i = Except.ok qs := by
  intro l
  induction l with
  | nil => intro i _; exact ⟨[], rfl⟩
  | cons item rest ih =>
    intro i h
    simp only [List.all_cons, Bool.and_eq_true] at h
    obtain ⟨r, hr⟩ := itemSafe_ok h.1 i
    obtain ⟨qs, hqs⟩ := ih (i + 1) h.2
    exact ⟨_, by unfold collectQs; rw [hr, hqs]⟩

/-- Shape of `parseJSONFormat` on an object (definitional). -/
theorem pjf_obj (fs : List (Str × Json)) :
    parseJSONFormat (Json.obj fs) =
      (if truthy (lookupField fs qKey) && truthy (lookupField fs oKey) then
        match parseJSONQuestion (Json.obj fs) 0 with
        | Except.error e => Except.error e
        | Except.ok (some q) => Except.ok [q]
        | Except.ok none => Except.ok []
      else
        match lookupField fs questionsKey with
        | some (Json.arr l) => collectQs l 0
        | _ => Except.ok []) := rfl

/-- Shape of `parseJSONFormat` on an array (definitional). -/
theorem pjf_arr (l : List Json) :
    parseJSONFormat (Json.arr l) = collectQs l 0 := rfl

/-! ## Claim C4, amended -/

/-- C4 (amended): the extractor never throws on a decoded value that is
not `null` and whose items (in whichever of the three shape branches is
taken) are not `null`, have string options when they pass the shape
check, and have a string `correct_answer` when that field is truthy; and
on any value matching none of the three shapes it returns the empty
sequence.  (On `null` it throws: see the counterexample.) -/
theorem claim_C4_amended :
    (∀ j : Json, dataSafe j = true → isOkE (parseJSONFormat j) = true) ∧
    (∀ j : Json, shapeMismatch j = true → parseJSONFormat j = Except.ok []) := by
  constructor
  · intro j h
    cases j with
    | null => simp [dataSafe] at h
    | bool b => rfl
    | num n => rfl
    | str s => rfl
    | arr l =>
      have h2 : l.all itemSafe = true := h
      obtain ⟨qs, hqs⟩ := collectQs_ok l 0 h2
      rw [pjf_arr, hqs]
      rfl
    | obj fs =>
      rw [pjf_obj]
      simp only [dataSafe] at h
      by_cases hqo : (truthy (lookupField fs qKey) && truthy (lookupField fs oKey)) = true
      · rw [if_pos hqo]
        rw [if_pos hqo] at h
        obtain ⟨r, hr⟩ := itemSafe_ok h 0
        rw [hr]
        cases r with
        | some q => rfl
        | none => rfl
      · rw [if_neg hqo]
        rw [if_neg hqo] at h
        cases hql : lookupField fs questionsKey with
        | none => rfl
        | some v =>
          cases v with
          | arr l =>
            rw [hql] at h
            have h2 : l.all itemSafe = true := h
            obtain ⟨qs, hqs⟩ := collectQs_ok l 0 h2
            show isOkE (collectQs l 0) = true
            rw [hqs]
            rfl
          | null => rfl
          | bool b => rfl
          | num n => rfl
          | str s => rfl
          | obj fs2 => rfl
  · intro j h
    cases j with
    | null => simp [shapeMismatch] at h
    | arr l => simp [shapeMismatch] at h
    | bool b => rfl
    | num n => rfl
    | str s => rfl
    | obj fs =>
      simp only [shapeMismatch, Bool.and_eq_true] at h
      have hcond : (truthy (lookupField fs qKey) && truthy (lookupField fs oKey)) = false := by
        have h1 := h.1
        cases hab : (truthy (lookupField fs qKey) && truthy (lookupField fs oKey)) with
        | false => rfl
        | true => rw [hab] at h1; simp at h1
      rw [pjf_obj, if_neg (by simp [hcond])]
      cases hql : lookupField fs questionsKey with
      | none => rfl
      | some v =>
        cases v with
        | arr l =>
          have h2 := h.2
          rw [hql] at h2
          have hb : (false : Bool) = true := h2
          cases hb
        | null => rfl
        | bool b => rfl
        | num n => rfl
        | str s => rfl
        | obj fs2 => rfl

/-- C4 witness: a well-formed single question object is safe and parses
without throwing. -/
theorem claim_C4_witness :
    isOkE (parseJSONFormat (Json.obj
      [(strL "question", Json.str (strL "Capital?")),
       (strL "options", Json.arr [Json.str (strL "London"), Json.str (strL "Paris"),
         Json.str (strL "Berlin")]),
       (strL "correct_answer", Json.str (strL "Paris"))])) = true :=
  claim_C4_amended.1 _ (by decide)

/-! ## Claim C6, amended -/

/-- C6 (amended): a non-`null` array element failing the minimal shape
check (truthy `question` and `options` being an array) is silently
skipped, and an array of three objects where the middle one lacks an
`options` array yields exactly the two valid questions in their original
relative order; a `null` element, however, throws (see the
counterexample). -/
theorem claim_C6_amended :
    (∀ (item : Json) (i : Nat), item ≠ Json.null → shapeOkJ item = false →
      parseJSONQuestion item i = Except.ok none) ∧
    (∀ (i1 i2 i3 : Json) (q1 q3 : MCQQuestion),
      parseJSONQuestion i1 0 = Except.ok (some q1) →
      parseJSONQuestion i2 1 = Except.ok none →
      parseJSONQuestion i3 2 = Except.ok (some q3) →
      parseJSONFormat (Json.arr [i1, i2, i3]) = Except.ok [q1, q3]) := by
  constructor
  · intro item i hnn h
    cases item with
    | null => exact absurd rfl hnn
    | bool b => rfl
    | num n => rfl
    | str s => rfl
    | arr l => rfl
    | obj fs =>
      simp only [parseJSONQuestion]
      by_cases ht : truthy (lookupField fs qKey) = true
      · rw [if_pos ht]
        simp only [shapeOkJ, ht, Bool.true_and] at h
        cases hol : lookupField fs oKey with
        | none => rfl
        | some v =>
          cases v with
          | arr oj =>
            rw [hol] at h
            have hb : (true : Bool) = false := h
            cases hb
          | null => rfl
          | bool b => rfl
          | num n => rfl
          | str s => rfl
          | obj fs2 => rfl
      · rw [if_neg ht]
  · intro i1 i2 i3 q1 q3 h1 h2 h3
    rw [pjf_arr]
    simp only [collectQs, h1, h2, h3]

/-- C6 witness: three objects, the middle one without an `options` array,
yield the first and third questions in order. -/
theorem claim_C6_witness :
    parseJSONFormat (Json.arr
      [Json.obj [(strL "question", Json.str (strL "Q1")),
                 (strL "options", Json.arr [Json.str (strL "a")])],
       Json.obj [(strL "question", Json.str (strL "Q2"))],
       Json.obj [(strL "question", Json.str (strL "Q3")),
                 (strL "options", Json.arr [Json.str (strL "b")])]]) =
      Except.ok
        [{ id := strL "q-0", question := Json.str (strL "Q1"),
           options := [strL "a"], correctAnswer := 0 },
         { id := strL "q-2", question := Json.str (strL "Q3"),
           options := [strL "b"], correctAnswer := 0 }] :=
  claim_C6_amended.2 _ _ _ _ _ rfl rfl rfl

/-! ## Claim C9 -/

theorem secScan_mem :
    ∀ (fs : List (Str × Json)) (k : Str) (s : Str),
      lookupField fs k = some (Json.str s) → excludedKey k = false →
      trimS s ≠ [] → (⟨titleize k, s⟩ : SectionEntry) ∈ secScan fs := by
  intro fs
  induction fs with
  | nil => intro k s h _ _; simp [lookupField] at h
  | cons kv rest ih =>
    intro k s h hex htr
    obtain ⟨k', v'⟩ := kv
    simp only [lookupField] at h
    by_cases hk : k' = k
    · rw [if_pos hk] at h
      injection h with hv
      subst hv
      rw [hk]
      unfold secScan
      rw [if_neg (by simp [hex])]
      show (⟨titleize k, s⟩ : SectionEntry) ∈
        (if trimS s ≠ [] then (⟨titleize k, s⟩ : SectionEntry) :: secScan rest
         else secScan rest)
      rw [if_pos htr]
      exact List.mem_cons_self _ _
    · rw [if_neg hk] at h
      have hm := ih k s h hex htr
      unfold secScan
      split
      · exact hm
      · split
        next s2 =>
          split
          · exact List.mem_cons_of_mem _ hm
          · exact hm
        next => exact hm

/-- C9: an item with a non-blank string `explanation` and no `reasoning`
property gets that string both as the parsed explanation and as an
additional section titled `Explanation`. -/
theorem claim_C9_explanation :
    ∀ (fs : List (Str × Json)) (i : Nat) (q : MCQQuestion) (s : Str),
      lookupField fs reasKey = none →
      lookupField fs explKey = some (Json.str s) →
      trimS s ≠ [] →
      parseJSONQuestion (Json.obj fs) i = Except.ok (some q) →
      q.explanation = some (Json.str s) ∧
      ∃ secs, q.additionalSections = some secs ∧
        (⟨strL "Explanation", s⟩ : SectionEntry) ∈ secs := by
  intro fs i q s hreas hexp htr hq
  obtain ⟨fs', oj, os, ca, hobj, ht, ho, hos, hca, rfl⟩ := pjq_inv hq
  injection hobj with e
  subst e
  have hs : s ≠ [] := ne_nil_of_trimS_ne_nil htr
  constructor
  · show explOf fs = some (Json.str s)
    unfold explOf
    rw [hreas, hexp]
    simp [truthy, hs]
  · have hmem := secScan_mem fs explKey s hexp (by decide) htr
    refine ⟨secScan fs, ?_, ?_⟩
    · show addSecsOf fs = some (secScan fs)
      unfold addSecsOf
      rw [if_neg (by intro h0; rw [h0] at hmem; simp at hmem)]
    · have ht9 : titleize explKey = strL "Explanation" := by decide
      rw [← ht9]
      exact hmem

/-- C9 witness: `explanation: "because so"` with no `reasoning` field. -/
theorem claim_C9_witness :
    ({ id := strL "q-0", question := Json.str (strL "Q?"),
       options := [strL "x", strL "y"], correctAnswer := 0,
       explanation := some (Json.str (strL "because so")),
       additionalSections :=
         some [⟨strL "Explanation", strL "because so"⟩] } : MCQQuestion).explanation =
      some (Json.str (strL "because so")) ∧
    ∃ secs,
      ({ id := strL "q-0", question := Json.str (strL "Q?"),
         options := [strL "x", strL "y"], correctAnswer := 0,
         explanation := some (Json.str (strL "because so")),
         additionalSections :=
           some [⟨strL "Explanation", strL "because so"⟩] } : MCQQuestion).additionalSections =
        some secs ∧
      (⟨strL "Explanation", strL "because so"⟩ : SectionEntry) ∈ secs :=
  claim_C9_explanation
    [(strL "question", Json.str (strL "Q?")),
     (strL "options", Json.arr [Json.str (strL "x"), Json.str (strL "y")]),
     (strL "explanation", Json.str (strL "because so"))]
    0 _ (strL "because so") rfl rfl (by decide) rfl

/-! ## Claim C5, amended -/

/-- C5 (amended): within a block, assignments to `correctAnswer` happen
in line order and the last one wins.  A Correct-Answer label line whose
extracted text matches an already-collected option sets `correctAnswer`
to that option's index, overriding any earlier glyph-derived value; a
glyph-marked option line sets it to that option's (new, last) index,
overriding any earlier label-derived value.  Inline glyph marking
therefore takes precedence only when the option line is processed after
the label line. -/
theorem claim_C5_amended :
    (∀ (s : SState) (line g : Str) (i : Nat),
      lineIsQ line = false → lineIsOpts line = false → lineIsCA line = true →
      extractKw cakw line = some g →
      findIdxO (fun opt =>
          includesS (lowerS opt) (lowerS (trimS (stripStars g))) ||
          includesS (lowerS (trimS (stripStars g))) (lowerS opt)) s.options = some i →
      (sLine s line).correctAnswer = i) ∧
    (∀ (s : SState) (line : Str),
      lineIsQ line = false → lineIsOpts line = false → lineIsCA line = false →
      lineIsReas line = false → customLabel line = none →
      s.currentSection = Sect.options → (∃ r, line = '-' :: r) →
      line.contains '✅' = true →
      (sLine s line).correctAnswer = (sLine s line).options.length - 1 ∧
      (sLine s line).options.length = s.options.length + 1) := by
  constructor
  · intro s line g i hq hopts hca hext hfind
    unfold sLine
    rw [if_neg (by simp [hq]), if_neg (by simp [hopts]), if_pos (by simp [hca])]
    unfold sCABranch
    rw [hext]
    show (match findIdxO (fun opt =>
        includesS (lowerS opt) (lowerS (trimS (stripStars g))) ||
        includesS (lowerS (trimS (stripStars g))) (lowerS opt)) s.options with
      | some i => { s with currentSection := Sect.answer, correctAnswer := i }
      | none => { s with currentSection := Sect.answer }).correctAnswer = i
    rw [hfind]
  · intro s line hq hopts hca hreas hcustom hsect hdash hglyph
    obtain ⟨r, rfl⟩ := hdash
    unfold sLine
    rw [if_neg (by simp [hq]), if_neg (by simp [hopts]), if_neg (by simp [hca]),
        if_neg (by simp [hreas]), hcustom]
    unfold sContent
    rw [hsect]
    show (({ s with
        options := s.options ++ [trimS (stripGlyph (stripStars (trimS (r.dropWhile jsWs))))]
        correctAnswer :=
          if ('-' :: r).contains '✅' then
            (s.options ++ [trimS (stripGlyph (stripStars (trimS (r.dropWhile jsWs))))]).length - 1
          else s.correctAnswer } : SState).correctAnswer =
      ({ s with
        options := s.options ++ [trimS (stripGlyph (stripStars (trimS (r.dropWhile jsWs))))]
        correctAnswer :=
          if ('-' :: r).contains '✅' then
            (s.options ++ [trimS (stripGlyph (stripStars (trimS (r.dropWhile jsWs))))]).length - 1
          else s.correctAnswer } : SState).options.length - 1) ∧
      ({ s with
        options := s.options ++ [trimS (stripGlyph (stripStars (trimS (r.dropWhile jsWs))))]
        correctAnswer :=
          if ('-' :: r).contains '✅' then
            (s.options ++ [trimS (stripGlyph (stripStars (trimS (r.dropWhile jsWs))))]).length - 1
          else s.correctAnswer } : SState).options.length = s.options.length + 1
    constructor
    · rw [if_pos hglyph]
    · simp

/-- C5 witness: applying the label-overrides-glyph direction at a
concrete state (glyph had set index 0, label text `Beta` matches option
1). -/
theorem claim_C5_witness :
    (sLine { question := strL "Q", options := [strL "Alpha", strL "Beta"],
             correctAnswer := 0, currentSection := Sect.options }
        (strL "**Correct Answer:** Beta")).correctAnswer = 1 :=
  claim_C5_amended.1
    { question := strL "Q", options := [strL "Alpha", strL "Beta"],
      correctAnswer := 0, currentSection := Sect.options }
    (strL "**Correct Answer:** Beta") (strL "Beta") 1
    (by decide) (by decide) (by decide) (by decide) (by decide)

/-! ## Claim C7, amended -/

/-- C7 (amended): a pending custom section (title and content both
non-empty) is flushed into `additionalSections` by an Options-label line,
by a new custom-label line, and at block end if the block ends while the
custom section is still current.  (A Correct-Answer or Reasoning label
line does not flush it, and if no later flush trigger occurs in the block
the section is discarded: see the counterexample.) -/
theorem claim_C7_amended :
    (∀ (s : SState) (line : Str),
      lineIsQ line = false → lineIsOpts line = true →
      s.currentSection = Sect.additional → s.curTitle ≠ [] → s.curContent ≠ [] →
      (⟨s.curTitle, trimS s.curContent⟩ : SectionEntry) ∈
        (sLine s line).additionalSections) ∧
    (∀ (s : SState) (line t : Str),
      lineIsQ line = false → lineIsOpts line = false → lineIsCA line = false →
      lineIsReas line = false → customLabel line = some t →
      s.currentSection = Sect.additional → s.curTitle ≠ [] → s.curContent ≠ [] →
      (⟨s.curTitle, trimS s.curContent⟩ : SectionEntry) ∈
        (sLine s line).additionalSections) ∧
    (∀ (s : SState) (i : Nat) (q : MCQQuestion),
      s.currentSection = Sect.additional → s.curTitle ≠ [] → s.curContent ≠ [] →
      sFinish s i = some q →
      ∃ secs, q.additionalSections = some secs ∧
        (⟨s.curTitle, trimS s.curContent⟩ : SectionEntry) ∈ secs) := by
  have hflush : ∀ s : SState, s.currentSection = Sect.additional → s.curTitle ≠ [] →
      s.curContent ≠ [] → (flushPending s).additionalSections =
        s.additionalSections ++ [⟨s.curTitle, trimS s.curContent⟩] := by
    intro s h1 h2 h3
    unfold flushPending
    rw [if_pos ⟨h1, h2, h3⟩]
  refine ⟨?_, ?_, ?_⟩
  · intro s line hq hopts h1 h2 h3
    unfold sLine
    rw [if_neg (by simp [hq]), if_pos (by simp [hopts])]
    show (⟨s.curTitle, trimS s.curContent⟩ : SectionEntry) ∈
      (flushPending s).additionalSections
    rw [hflush s h1 h2 h3]
    exact List.mem_append_right _ (List.mem_singleton_self _)
  · intro s line t hq hopts hca hreas hcustom h1 h2 h3
    unfold sLine
    rw [if_neg (by simp [hq]), if_neg (by simp [hopts]), if_neg (by simp [hca]),
        if_neg (by simp [hreas]), hcustom]
    show (⟨s.curTitle, trimS s.curContent⟩ : SectionEntry) ∈
      (flushPending s).additionalSections
    rw [hflush s h1 h2 h3]
    exact List.mem_append_right _ (List.mem_singleton_self _)
  · intro s i q h1 h2 h3 hf
    have he := hflush s h1 h2 h3
    unfold sFinish at hf
    split at hf
    case isTrue hcond =>
      simp only [Option.some.injEq] at hf
      subst hf
      refine ⟨(flushPending s).additionalSections, ?_, ?_⟩
      · show (if (flushPending s).additionalSections ≠ [] then
            some (flushPending s).additionalSections else none) =
          some (flushPending s).additionalSections
        rw [if_pos (by rw [he]; simp)]
      · rw [he]
        exact List.mem_append_right _ (List.mem_singleton_self _)
    case isFalse => simp at hf

/-- C7 witness: the Options-label flush at a concrete pending custom
section. -/
theorem claim_C7_witness :
    (⟨strL "Notes", trimS (strL "body")⟩ : SectionEntry) ∈
      (sLine { question := strL "Q", currentSection := Sect.additional,
               curTitle := strL "Notes", curContent := strL "body" }
          (strL "**Options:**")).additionalSections :=
  claim_C7_amended.1
    { question := strL "Q", currentSection := Sect.additional,
      curTitle := strL "Notes", curContent := strL "body" }
    (strL "**Options:**")
    (by decide) (by decide) rfl (by decide) (by decide)

/-! ## Claim C8, amended -/

theorem lpStep_rel {st1 st2 : LPState} (l : Str)
    (hcq : st1.cq = st2.cq) (hacc : st1.acc.map stripId = st2.acc.map stripId) :
    (lpStep st1 l).cq = (lpStep st2 l).cq ∧
    (lpStep st1 l).acc.map stripId = (lpStep st2 l).acc.map stripId := by
  unfold lpStep
  dsimp only
  split
  · refine ⟨rfl, ?_⟩
    show (if pqFlushable st1.cq = true then st1.acc ++ [mkLQ st1.ctr st1.cq]
          else st1.acc).map stripId =
      (if pqFlushable st2.cq = true then st2.acc ++ [mkLQ st2.ctr st2.cq]
       else st2.acc).map stripId
    rw [hcq]
    split
    · rw [List.map_append, List.map_append, hacc]
      rfl
    · exact hacc
  · split
    · refine ⟨?_, hacc⟩
      rw [hcq]
    · split
      · cases firstAD (trimS l) with
        | some c => exact ⟨by rw [hcq], hacc⟩
        | none => exact ⟨hcq, hacc⟩
      · cases explAlt (trimS l) with
        | some rest => exact ⟨by rw [hcq], hacc⟩
        | none => exact ⟨hcq, hacc⟩

theorem lpFold_rel :
    ∀ (lines : List Str) (st1 st2 : LPState),
      st1.cq = st2.cq → st1.acc.map stripId = st2.acc.map stripId →
      (lines.foldl lpStep st1).cq = (lines.foldl lpStep st2).cq ∧
      ((lines.foldl lpStep st1).acc.map stripId =
        (lines.foldl lpStep st2).acc.map stripId) := by
  intro lines
  induction lines with
  | nil => intro st1 st2 h1 h2; exact ⟨h1, h2⟩
  | cons l ls ih =>
    intro st1 st2 h1 h2
    have hstep := lpStep_rel l h1 h2
    exact ih _ _ hstep.1 hstep.2

theorem lineParse_stripId (t : Str) (n1 n2 : Nat) :
    (lineParse n1 t).map stripId = (lineParse n2 t).map stripId := by
  unfold lineParse lpFinish
  dsimp only
  obtain ⟨h1, h2⟩ := lpFold_rel ((splitNl t).filter (fun l => trimS l ≠ []))
    { ctr := n1 } { ctr := n2 } rfl rfl
  rw [h1]
  split
  · rw [List.map_append, List.map_append, h2]
    rfl
  · exact h2

/-- C8 (amended): the text parser is deterministic up to `id` values: two
invocations on the same text (with different `Date.now()` readings)
return questions identical in every field except `id`.  The structured
path is fully deterministic; the line-pattern path seeds its id counter
from the clock. -/
theorem claim_C8_amended :
    ∀ (text : Str) (n1 n2 : Nat),
      (parseMCQText n1 text).map stripId = (parseMCQText n2 text).map stripId := by
  intro text n1 n2
  unfold parseMCQText
  cases hs : parseStructuredFormat text with
  | nil => exact lineParse_stripId text n1 n2
  | cons q rest => rfl

/-! ## Claim C8, counterexample -/

/-- C8 is refuted: the line-pattern parser seeds its id counter from
`Date.now()`, so two invocations on the same text at different times
return different `id` values (`q-0` versus `q-1` here). -/
theorem claim_C8_counterexample :
    parseMCQText 0 (strL "1. Q\nA. x") ≠ parseMCQText 1 (strL "1. Q\nA. x") := by
  intro h
  have h2 := congrArg (List.map MCQQuestion.id) h
  have h3 : ([strL "q-0"] : List Str) = [strL "q-1"] := h2
  exact absurd h3 (by decide)

end MCQ
